import Mathlib

/-!
Shallow embedding of the smolagent UI wrapper backend, covering
`src/backend/output_parser.py` (signal extraction from raw agent output and
aggregation into the Phase 2.0 unified response) and
`src/backend/map_manager.py` (the floor-plan map model).

Modelling conventions:
* Python strings are modelled as `String` / `List Char`; the regular
  expressions of the source are modelled by explicit scanners that reproduce
  `re.findall`'s discipline (scan left to right, try a full match at each
  position, on success continue right after the match, otherwise advance one
  character).  Greedy / lazy sub-patterns are resolved explicitly; where the
  regex engine's backtracking provably cannot change the outcome the scanner
  commits deterministically (noted at each definition).
* `\w`, `\s`, `str.lower`, `str.strip` use their ASCII meaning.
* `json.loads` is modelled by an executable recursive-descent reader
  (`json_loads`) over a `Json` value type with rational numbers; JSON objects
  keep Python's dict semantics for duplicate keys (last value wins, first
  position kept).
* Filesystem-dependent code (`_extract_images`, bitmap scanning, reading the
  rectangles file) is modelled by explicit parameters: `parse` takes the image
  extractor as a function argument, `load_legacy_data` takes the already
  decoded JSON document and the scanned bitmap list.
-/

namespace SmolUI

/-- Backtick character, written by code point to keep the source readable. -/
def bq : Char := Char.ofNat 96

/-- Opening curly brace character. -/
def lbrace : Char := Char.ofNat 123

/-- Closing curly brace character. -/
def rbrace : Char := Char.ofNat 125

/-- Single-quote character. -/
def squote : Char := Char.ofNat 39

/-- ASCII model of Python's regex `\w` class: `[a-zA-Z0-9_]`. -/
def isWordChar (c : Char) : Bool := c.isAlpha || c.isDigit || c == '_'

/-- ASCII model of Python's regex `\s` class / `str.strip` default set. -/
def isSpaceChar (c : Char) : Bool :=
  c == ' ' || c == '\t' || c == '\n' || c == '\r' || c == '\x0b' || c == '\x0c'

/-- Model of `str.lower` on a character list (ASCII). -/
def lowL (s : List Char) : List Char := s.map Char.toLower

/-- Model of `str.strip()` (ASCII whitespace). -/
def pyStrip (s : List Char) : List Char :=
  ((s.dropWhile isSpaceChar).reverse.dropWhile isSpaceChar).reverse

/-- Greedy `\s*`: drop the maximal leading whitespace run. -/
def skipWs (s : List Char) : List Char := s.dropWhile isSpaceChar

/-- Whether `pat` is a literal prefix of `s`. -/
def startsWithL : List Char → List Char → Bool
  | [], _ => true
  | _ :: _, [] => false
  | p :: ps, c :: cs => p == c && startsWithL ps cs

/-- Match the literal `pat` at the head of `s`, returning the rest. -/
def dropLit : List Char → List Char → Option (List Char)
  | [], s => some s
  | _ :: _, [] => none
  | p :: ps, c :: cs => if c == p then dropLit ps cs else none

/-- Match the literal `pat` (given in lowercase) case-insensitively at the
head of `s`, returning the rest.  Models `re.IGNORECASE` literals. -/
def dropCI : List Char → List Char → Option (List Char)
  | [], s => some s
  | _ :: _, [] => none
  | p :: ps, c :: cs => if c.toLower == p then dropCI ps cs else none

/-- Substring containment, modelling Python's `needle in hay`. -/
def containsSub : List Char → List Char → Bool
  | ndl, [] => ndl.isEmpty
  | ndl, c :: cs => startsWithL ndl (c :: cs) || containsSub ndl cs

/-- Generic `re.findall` loop: at each position try `tryFn` for a full match;
on success record it and continue right after the match, otherwise advance one
character.  `fuel` bounds the number of steps; every step consumes at least
one character, so `s.length` is always enough fuel. -/
def scanWith {α : Type} (tryFn : List Char → Option (α × List Char)) :
    Nat → List Char → List α
  | 0, _ => []
  | _ + 1, [] => []
  | fuel + 1, c :: cs =>
    match tryFn (c :: cs) with
    | some (m, rest) => m :: scanWith tryFn fuel rest
    | none => scanWith tryFn fuel cs

/-- Split `s` at the first occurrence of a triple-backtick fence, returning
the part before it and the part after it; models the lazy `(.*?)` followed by
the literal fence in the code-block patterns (with `re.DOTALL`). -/
def splitAtFence : List Char → Option (List Char × List Char)
  | [] => none
  | c :: cs =>
    if startsWithL [bq, bq, bq] (c :: cs) then some ([], cs.drop 2)
    else
      match splitAtFence cs with
      | none => none
      | some (b, a) => some (c :: b, a)

/-- Full match of the fenced-block pattern with optional language tag
(source line 293, `r'```(\w+)?\n(.*?)```'` with `re.DOTALL`) at the head of
`s`: the optional group `(\w+)?` is the maximal word run after the fence (the
regex backtracking over it cannot succeed otherwise, since `\w` never matches
the required newline), then the lazy body up to the first closing fence.
Returns `((language, body), rest-after-match)`. -/
def tryFencedAt (s : List Char) : Option ((List Char × List Char) × List Char) :=
  match dropLit [bq, bq, bq] s with
  | none => none
  | some r0 =>
    let lang := r0.takeWhile isWordChar
    match r0.drop lang.length with
    | '\n' :: r2 =>
      match splitAtFence r2 with
      | some (body, rest) => some ((lang, body), rest)
      | none => none
    | _ => none

/-- Full match of the untagged fenced-block pattern
(source line 318, `r'```\n(.*?)```'` with `re.DOTALL`) at the head of `s`. -/
def tryFencedSimpleAt (s : List Char) : Option (List Char × List Char) :=
  match dropLit [bq, bq, bq] s with
  | some ('\n' :: r2) =>
    match splitAtFence r2 with
    | some (body, rest) => some (body, rest)
    | none => none
  | _ => none

/-- All fenced-block matches of a string (language group may be empty). -/
def fencedMatches (s : List Char) : List (List Char × List Char) :=
  scanWith tryFencedAt s.length s

/-- All untagged fenced-block matches of a string. -/
def simpleFenceMatches (s : List Char) : List (List Char) :=
  scanWith tryFencedSimpleAt s.length s

/-- Alternation of the three code labels of source line 306
(`(?:Code:|Executing code:|Running code:)`, case-sensitive). -/
def dropLabel (s : List Char) : Option (List Char) :=
  match dropLit "Code:".data s with
  | some r => some r
  | none =>
    match dropLit "Executing code:".data s with
    | some r => some r
    | none => dropLit "Running code:".data s

/-- Whether a line body (the characters before the next newline) can be one
repetition of `[ \t]+.+`: it must start with a space or tab and, accounting
for the backtracking between the two greedy pieces, have at least two
characters. -/
def lineOk (line : List Char) : Bool :=
  match line with
  | c :: _ :: _ => c == ' ' || c == '\t'
  | _ => false

/-- Greedy repetition `((?:[ \t]+.+\n?)+)` of the label pattern: consume
indented lines (each with its trailing newline) while they match, returning
the captured text and the rest. -/
def grabLines : Nat → List Char → List Char × List Char
  | 0, s => ([], s)
  | fuel + 1, s =>
    let line := s.takeWhile (fun c => c != '\n')
    if lineOk line then
      match s.drop line.length with
      | '\n' :: rest =>
        let p := grabLines fuel rest
        (line ++ '\n' :: p.1, p.2)
      | rest => (line, rest)
    else ([], s)

/-- Full match of the labelled-code pattern
(source line 306, `r'(?:Code:|Executing code:|Running code:)\s*\n((?:[ \t]+.+\n?)+)'`)
at the head of `s`.  `\s*\n` commits to the last newline of the whitespace run
after the label; the regex's deeper backtracking to an earlier newline could
only prepend whitespace-only lines to the capture, which the caller discards
through `str.strip` anyway, so committing is observationally faithful. -/
def tryCodeLabelAt (s : List Char) : Option (List Char × List Char) :=
  match dropLabel s with
  | none => none
  | some r0 =>
    let w := r0.takeWhile isSpaceChar
    if w.contains '\n' then
      let r1 := (w.reverse.takeWhile (fun c => c != '\n')).reverse ++ r0.drop w.length
      match grabLines r1.length r1 with
      | ([], _) => none
      | (cap, rest) => some (cap, rest)
    else none

/-- All labelled-code matches of a string. -/
def labelMatches (s : List Char) : List (List Char) :=
  scanWith tryCodeLabelAt s.length s

/-- Case-insensitive literal match that also returns the matched slice in its
original spelling, modelling a captured alternative under `re.IGNORECASE`. -/
def tryDir (pat : List Char) (s : List Char) : Option (List Char × List Char) :=
  (dropCI pat s).map fun r => (s.take pat.length, r)

/-- Alternation `(up|down|left|right)` under `re.IGNORECASE`: leftmost
alternative wins; the capture keeps the original spelling. -/
def matchDir (s : List Char) : Option (List Char × List Char) :=
  match tryDir "up".data s with
  | some m => some m
  | none =>
    match tryDir "down".data s with
    | some m => some m
    | none =>
      match tryDir "left".data s with
      | some m => some m
      | none => tryDir "right".data s

/-- Full match of the tagged arrow pattern (source line 434,
`r'ARROW_COMMAND:\s*room=([^,]+),\s*direction=(up|down|left|right)'` with
`re.IGNORECASE`) at the head of `s`.  Returns `((room, direction), rest)`
with both captures in their original spelling. -/
def tryArrowCmdAt (s : List Char) :
    Option ((List Char × List Char) × List Char) :=
  (dropCI "arrow_command:".data s).bind fun r0 =>
  (dropCI "room=".data (skipWs r0)).bind fun r2 =>
  let room := r2.takeWhile (fun c => c != ',')
  if room.isEmpty then none
  else
    match r2.drop room.length with
    | ',' :: r3 =>
      (dropCI "direction=".data (skipWs r3)).bind fun r5 =>
      (matchDir r5).map fun dr => ((room, dr.1), dr.2)
    | _ => none

/-- Quote class `["\']` of the draw_arrow pattern. -/
def isQuoteChar (c : Char) : Bool := c == '"' || c == squote

/-- Quoted capture `["\']([^"\']+)["\']`: either quote opens, the body is the
maximal nonempty run free of both quote kinds, and either quote closes. -/
def takeQuoted (s : List Char) : Option (List Char × List Char) :=
  match s with
  | [] => none
  | c :: cs =>
    if isQuoteChar c then
      let body := cs.takeWhile (fun x => !(isQuoteChar x))
      if body.isEmpty then none
      else
        match cs.drop body.length with
        | q :: rest => if isQuoteChar q then some (body, rest) else none
        | [] => none
    else none

/-- Full match of the draw_arrow call pattern (source lines 418 and 450,
`r'draw_arrow\s*\(\s*room_name\s*=\s*["\']([^"\']+)["\']\s*,\s*direction\s*=\s*["\']([^"\']+)["\']\s*\)'`
with `re.IGNORECASE`) at the head of `s`. -/
def tryDrawAt (s : List Char) :
    Option ((List Char × List Char) × List Char) :=
  (dropCI "draw_arrow".data s).bind fun r0 =>
  (dropLit "(".data (skipWs r0)).bind fun r1 =>
  (dropCI "room_name".data (skipWs r1)).bind fun r2 =>
  (dropLit "=".data (skipWs r2)).bind fun r3 =>
  (takeQuoted (skipWs r3)).bind fun p4 =>
  (dropLit ",".data (skipWs p4.2)).bind fun r5 =>
  (dropCI "direction".data (skipWs r5)).bind fun r6 =>
  (dropLit "=".data (skipWs r6)).bind fun r7 =>
  (takeQuoted (skipWs r7)).bind fun p8 =>
  (dropLit ")".data (skipWs p8.2)).map fun r9 => ((p4.1, p8.1), r9)

/-- All tagged arrow-command matches of a string. -/
def scanArrowCmd (s : List Char) : List (List Char × List Char) :=
  scanWith tryArrowCmdAt s.length s

/-- All draw_arrow call matches of a string. -/
def scanDraw (s : List Char) : List (List Char × List Char) :=
  scanWith tryDrawAt s.length s

/-- Full match of the map-command pattern (source line 526,
`r'MAP_COMMAND:\s*(\{.*?\})'` with `re.DOTALL`, case-sensitive) at the head
of `s`: after the tag and optional whitespace an opening brace must follow,
and the lazy body runs to the first closing brace.  The capture includes both
braces; nested JSON objects are therefore truncated at the first `\x7d`. -/
def tryMapCmdAt (s : List Char) : Option (List Char × List Char) :=
  (dropLit "MAP_COMMAND:".data s).bind fun r0 =>
  match skipWs r0 with
  | c :: cs =>
    if c == lbrace then
      let body := cs.takeWhile (fun x => x != rbrace)
      match cs.drop body.length with
      | b :: rest =>
        if b == rbrace then some (lbrace :: (body ++ [rbrace]), rest) else none
      | [] => none
    else none
  | [] => none

/-- All map-command matches of a string. -/
def mapCmdMatches (s : List Char) : List (List Char) :=
  scanWith tryMapCmdAt s.length s

/-- Whether the word `pat` occurs in `s` at the head position with a word
boundary after it; `pat` is a nonempty run of word characters in the intended
use (the room names), so `\b` before/after it is the word/non-word transition. -/
def wwAt (pat s : List Char) : Bool :=
  startsWithL pat s &&
    (match (s.drop pat.length).head? with
     | none => true
     | some c => !(isWordChar c))

/-- Scan for a whole-word occurrence of `pat`; `prev` is the character just
before the current position (`none` at the start of the string). -/
def hasWW (pat : List Char) : Option Char → List Char → Bool
  | prev, [] =>
    pat.isEmpty &&
      (match prev with
       | none => true
       | some c => !(isWordChar c))
  | prev, c :: cs =>
    (wwAt pat (c :: cs) &&
      (match prev with
       | none => true
       | some p => !(isWordChar p))) ||
    hasWW pat (some c) cs

/-- Model of `re.search(r'\b' + re.escape(word) + r'\b', s)` for a word made
of word characters (`re.escape` is the identity on the room names). -/
def hasWholeWord (pat s : List Char) : Bool := hasWW pat none s

/-- JSON values as decoded by `json.loads`; numbers are modelled as rationals
(decimal literals are copied through the pipeline without arithmetic, so the
rational value identifies them faithfully). -/
inductive Json where
  | null : Json
  | bool : Bool → Json
  | num : Rat → Json
  | str : String → Json
  | arr : List Json → Json
  | obj : List (String × Json) → Json

/-- JSON whitespace accepted between tokens by `json.loads`. -/
def isJsonWs (c : Char) : Bool := c == ' ' || c == '\t' || c == '\n' || c == '\r'

/-- Value of a hexadecimal digit, if any. -/
def hexVal (c : Char) : Option Nat :=
  if c.isDigit then some (c.toNat - 48)
  else
    let l := c.toLower
    if 'a' ≤ l && l ≤ 'f' then some (l.toNat - 87) else none

/-- Read exactly four hexadecimal digits (the `\uXXXX` escape). -/
def readHex4 : List Char → Option (Nat × List Char)
  | a :: b :: c :: d :: rest =>
    (hexVal a).bind fun va =>
    (hexVal b).bind fun vb =>
    (hexVal c).bind fun vc =>
    (hexVal d).map fun vd => (((va * 16 + vb) * 16 + vc) * 16 + vd, rest)
  | _ => none

/-- Body of a JSON string, after the opening quote: literal characters (raw
control characters are rejected as in the strict default of `json.loads`),
the standard escapes, and `\uXXXX` (modelled as a single code unit). -/
def readJStr : Nat → List Char → Option (List Char × List Char)
  | 0, _ => none
  | fuel + 1, s =>
    match s with
    | [] => none
    | c :: cs =>
      if c == '"' then some ([], cs)
      else if c == '\\' then
        match cs with
        | [] => none
        | e :: cs2 =>
          let esc : Option (Char × List Char) :=
            if e == '"' then some ('"', cs2)
            else if e == '\\' then some ('\\', cs2)
            else if e == '/' then some ('/', cs2)
            else if e == 'b' then some ('\x08', cs2)
            else if e == 'f' then some ('\x0c', cs2)
            else if e == 'n' then some ('\n', cs2)
            else if e == 'r' then some ('\r', cs2)
            else if e == 't' then some ('\t', cs2)
            else if e == 'u' then
              (readHex4 cs2).map fun p => (Char.ofNat p.1, p.2)
            else none
          esc.bind fun p =>
            (readJStr fuel p.2).map fun q => (p.1 :: q.1, q.2)
      else if c.toNat < 32 then none
      else (readJStr fuel cs).map fun q => (c :: q.1, q.2)

/-- Digits to a natural number. -/
def digitsToNat (ds : List Char) : Nat :=
  ds.foldl (fun n c => n * 10 + (c.toNat - 48)) 0

/-- Read a JSON number per the JSON grammar (`-?int frac? exp?`, no leading
zeros), returning its rational value. -/
def readJNum (s : List Char) : Option (Rat × List Char) :=
  let p := if s.head? == some '-' then (true, s.drop 1) else (false, s)
  let ds := p.2.takeWhile Char.isDigit
  if ds.isEmpty then none
  else if 1 < ds.length && ds.head? == some '0' then none
  else
    let r1 := p.2.drop ds.length
    let intVal : Rat := (digitsToNat ds : Nat)
    let fracStep : Option (Rat × List Char) :=
      match r1 with
      | '.' :: r2 =>
        let fs := r2.takeWhile Char.isDigit
        if fs.isEmpty then none
        else some (intVal + (digitsToNat fs : Rat) / ((10 : Rat) ^ fs.length),
                   r2.drop fs.length)
      | _ => some (intVal, r1)
    fracStep.bind fun q =>
      match q.2 with
      | e :: r3 =>
        if e == 'e' || e == 'E' then
          let sgn := if r3.head? == some '-' then (-1 : Int)
                     else (1 : Int)
          let r4 := if r3.head? == some '-' || r3.head? == some '+'
                    then r3.drop 1 else r3
          let es := r4.takeWhile Char.isDigit
          if es.isEmpty then none
          else
            let v := if sgn = 1 then q.1 * (10 : Rat) ^ digitsToNat es
                     else q.1 / ((10 : Rat) ^ digitsToNat es)
            some (if p.1 then -v else v, r4.drop es.length)
        else some (if p.1 then -q.1 else q.1, q.2)
      | [] => some (if p.1 then -q.1 else q.1, q.2)

/-- Insert a key/value pair with Python dict semantics: a duplicate key keeps
its first position but takes the new value. -/
def insertKV (kvs : List (String × Json)) (k : String) (v : Json) :
    List (String × Json) :=
  if kvs.any (fun p => p.1 == k) then
    kvs.map fun p => if p.1 == k then (k, v) else p
  else kvs ++ [(k, v)]

/-- Collapse duplicate keys of a decoded member list, dict style. -/
def dedupKeys (kvs : List (String × Json)) : List (String × Json) :=
  kvs.foldl (fun acc p => insertKV acc p.1 p.2) []

mutual

/-- Read one JSON value (after optional leading whitespace). -/
def readJVal : Nat → List Char → Option (Json × List Char)
  | 0, _ => none
  | fuel + 1, s =>
    let t := s.dropWhile isJsonWs
    match t with
    | [] => none
    | c :: cs =>
      if c == lbrace then
        match cs.dropWhile isJsonWs with
        | x :: r =>
          if x == rbrace then some (Json.obj [], r)
          else
            (readJMembers fuel (cs.dropWhile isJsonWs)).map fun p =>
              (Json.obj (dedupKeys p.1), p.2)
        | [] => none
      else if c == '[' then
        match cs.dropWhile isJsonWs with
        | x :: r =>
          if x == ']' then some (Json.arr [], r)
          else
            (readJItems fuel (cs.dropWhile isJsonWs)).map fun p =>
              (Json.arr p.1, p.2)
        | [] => none
      else if c == '"' then
        (readJStr cs.length cs).map fun p => (Json.str (String.mk p.1), p.2)
      else if startsWithL "true".data t then some (Json.bool true, t.drop 4)
      else if startsWithL "false".data t then some (Json.bool false, t.drop 5)
      else if startsWithL "null".data t then some (Json.null, t.drop 4)
      else (readJNum t).map fun p => (Json.num p.1, p.2)

/-- Read one or more `"key": value` members followed by a closing brace. -/
def readJMembers : Nat → List Char → Option (List (String × Json) × List Char)
  | 0, _ => none
  | fuel + 1, s =>
    match s.dropWhile isJsonWs with
    | '"' :: cs =>
      (readJStr cs.length cs).bind fun kp =>
      match kp.2.dropWhile isJsonWs with
      | ':' :: r2 =>
        (readJVal fuel r2).bind fun vp =>
        match vp.2.dropWhile isJsonWs with
        | ',' :: r3 =>
          (readJMembers fuel r3).map fun q =>
            ((String.mk kp.1, vp.1) :: q.1, q.2)
        | x :: r3 =>
          if x == rbrace then some ([(String.mk kp.1, vp.1)], r3) else none
        | [] => none
      | _ => none
    | _ => none

/-- Read one or more array items followed by a closing bracket. -/
def readJItems : Nat → List Char → Option (List Json × List Char)
  | 0, _ => none
  | fuel + 1, s =>
    (readJVal fuel s).bind fun vp =>
    match vp.2.dropWhile isJsonWs with
    | ',' :: r2 => (readJItems fuel r2).map fun q => (vp.1 :: q.1, q.2)
    | ']' :: r2 => some ([vp.1], r2)
    | _ => none

end

/-- Model of `json.loads`: one value, optionally surrounded by whitespace,
consuming the whole input. -/
def json_loads (s : List Char) : Option Json :=
  match readJVal (s.length + 1) s with
  | some (v, rest) => if (rest.dropWhile isJsonWs).isEmpty then some v else none
  | none => none

/-- One entry of `code_steps` in the agent response: the optional label under
key `step` and the code body (`step.get('code', '')` makes a missing code key
behave as the empty string). -/
structure AgentStep where
  step : Option String
  code : String
deriving Repr, DecidableEq

/-- The agent response record consumed by `OutputParser` (the spec's
RawAgentOutput).  `text` is an `Option` because `generate_unified_response`
distinguishes a missing `text` key (`dict.get` default) from an empty string;
for `raw_output`, `code_steps` and `logs` every use is through a default that
makes a missing key behave as empty, so they are modelled plainly.
`errorFlag` is the truthiness of `response.get("error")`. -/
structure AgentResponse where
  text : Option String
  raw_output : String
  code_steps : List AgentStep
  logs : List String
  errorFlag : Bool
deriving Repr, DecidableEq

/-- A code-block output object: `content`, `language`, the optional `step`
label (present only for `code_steps` blocks) and the optional `source` marker
(present only for log blocks). -/
structure CodeBlock where
  content : String
  language : String
  step : Option String
  src : Option String
deriving Repr, DecidableEq

/-- Typed output events, one constructor per `type` tag produced by
`OutputParser.parse`: `text`, `code`, `image` (base64 data, format, optional
path), `arrow` (room, direction), `clear_arrows`, `highlight_room`, `map`,
`clear_map` and `error`. -/
inductive Ev where
  | text : String → Ev
  | code : CodeBlock → Ev
  | image : String → String → Option String → Ev
  | arrow : String → String → Ev
  | clearArrows : Ev
  | highlight : List String → Ev
  | mapCmd : Json → Ev
  | clearMap : Ev
  | error : String → Ev

/-- Whether an event is a map command. -/
def isMapEv : Ev → Bool
  | Ev.mapCmd _ => true
  | _ => false

/-- Whether an event is an image. -/
def isImageEv : Ev → Bool
  | Ev.image _ _ _ => true
  | _ => false

/-- Whether an event writes the unified message (text or code). -/
def touchesMsg : Ev → Bool
  | Ev.text _ => true
  | Ev.code _ => true
  | _ => false

/-- The fixed room-name registry (source line 28). -/
def room_names : List String :=
  ["Room1", "Room2", "Bathroom", "Kitchen", "Toilet", "Level1", "Level2"]

/-- String of the lowercased characters of a capture. -/
def lowerStr (s : List Char) : String := String.mk (lowL s)

/-- String of the stripped characters of a capture. -/
def stripStr (s : List Char) : String := String.mk (pyStrip s)

/-- Code blocks of the `code_steps` pass (source lines 280-287): taken
verbatim, labelled `step.get('step', f'Step i+1')`, never deduplicated. -/
def stepBlocks (steps : List AgentStep) : List CodeBlock :=
  steps.enum.map fun p =>
    ⟨p.2.code, "python", some (p.2.step.getD ("Step " ++ toString (p.1 + 1))), none⟩

/-- Block built from one fenced match: dropped if the body strips to empty,
language defaulted to python when the tag group is empty (lines 296-302). -/
def mkFencedBlock (lang body : List Char) : Option CodeBlock :=
  let c := pyStrip body
  if c.isEmpty then none
  else some ⟨String.mk c, if lang.isEmpty then "python" else String.mk lang,
             none, none⟩

/-- All blocks of the tagged-fence pass over a string; this pass consults no
dedup set. -/
def fencedBlocksOf (s : String) : List CodeBlock :=
  (fencedMatches s.data).filterMap fun m => mkFencedBlock m.1 m.2

/-- Fold of the deduplicating passes (lines 309-315 and 321-327): a match is
added only if its stripped content is nonempty and not already present. -/
def dedupFoldStrip (acc : List CodeBlock) (ms : List (List Char)) :
    List CodeBlock :=
  ms.foldl
    (fun acc m =>
      let c := String.mk (pyStrip m)
      if c = "" ∨ acc.any (fun b => b.content == c) then acc
      else acc ++ [⟨c, "python", none, none⟩])
    acc

/-- Heuristic of the logs pass (lines 335-336). -/
def looksLikeCode (e : String) : Bool :=
  containsSub "def ".data e.data || containsSub "import ".data e.data ||
  containsSub "class ".data e.data || containsSub "=".data e.data

/-- Fold of the logs pass (lines 330-344): the raw entry is the content,
deduplicated by exact (unstripped) content. -/
def logsFold (acc : List CodeBlock) (logs : List String) : List CodeBlock :=
  logs.foldl
    (fun acc entry =>
      if looksLikeCode entry ∧ ¬ (acc.any (fun b => b.content == entry) = true)
      then acc ++ [⟨entry, "python", none, some "logs"⟩]
      else acc)
    acc

/-- The blocks present before the deduplicating passes run: `code_steps`
blocks followed by tagged-fence blocks. -/
def baseBlocks (r : AgentResponse) : List CodeBlock :=
  stepBlocks r.code_steps ++ fencedBlocksOf r.raw_output

/-- Model of `OutputParser._extract_code_blocks` (lines 267-346): code_steps
pass, then (when raw output is nonempty) the tagged-fence pass without dedup,
the labelled pass and the untagged-fence pass with dedup, then the logs pass. -/
def extract_code_blocks (r : AgentResponse) : List CodeBlock :=
  let a3 :=
    if r.raw_output = "" then stepBlocks r.code_steps
    else
      let a2 := dedupFoldStrip (baseBlocks r) (labelMatches r.raw_output.data)
      dedupFoldStrip a2 (simpleFenceMatches r.raw_output.data)
  logsFold a3 r.logs

/-- Model of `OutputParser._extract_code_from_text` (lines 348-372): the
tagged-fence pass alone, over the final text, with no dedup. -/
def extract_code_from_text (text : String) : List CodeBlock :=
  fencedBlocksOf text

/-- Model of `OutputParser._extract_room_highlights` (lines 374-397): filter
the registry by case-insensitive whole-word occurrence in the text. -/
def extract_room_highlights (text : String) : List String :=
  if text = "" then []
  else room_names.filter fun room => hasWholeWord (lowL room.data) (lowL text.data)

/-- Arrow pairs of the code_steps pass (lines 414-428): every draw_arrow call
match yields a pair, with no dedup check. -/
def arrowsFromSteps (steps : List AgentStep) : List (String × String) :=
  steps.foldl
    (fun acc st =>
      acc ++ (scanDraw st.code.data).map fun m => (stripStr m.1, lowerStr m.2))
    []

/-- Fold of the deduplicating arrow passes (lines 437-446 and 453-462): the
membership test compares the unstripped room capture and the lowercased
direction against the stored (stripped, lowercased) pairs. -/
def arrowDedupFold (acc : List (String × String))
    (ms : List (List Char × List Char)) : List (String × String) :=
  ms.foldl
    (fun acc m =>
      if acc.any (fun a => a.1 == String.mk m.1 && a.2 == lowerStr m.2) then acc
      else acc ++ [(stripStr m.1, lowerStr m.2)])
    acc

/-- The (room, direction) pairs of `OutputParser._extract_arrows`
(lines 399-464). -/
def arrowPairs (raw text : String) (r : AgentResponse) :
    List (String × String) :=
  let combined := (raw ++ "\n" ++ text).data
  arrowDedupFold
    (arrowDedupFold (arrowsFromSteps r.code_steps) (scanArrowCmd combined))
    (scanDraw combined)

/-- Model of `OutputParser._extract_arrows` as events. -/
def extract_arrows (raw text : String) (r : AgentResponse) : List Ev :=
  (arrowPairs raw text r).map fun p => Ev.arrow p.1 p.2

/-- Model of `OutputParser._extract_clear_arrows` (lines 466-498). -/
def extract_clear_arrows (raw text : String) (r : AgentResponse) : Option Ev :=
  if r.code_steps.any fun st => containsSub "clear_arrows()".data st.code.data
  then some Ev.clearArrows
  else if containsSub "CLEAR_ARROWS_COMMAND".data (raw ++ "\n" ++ text).data
  then some Ev.clearArrows
  else none

/-- Model of `OutputParser._extract_map_command` (lines 500-543): the last
tag match wins; its JSON payload is decoded, and a decode failure drops the
event (the code_steps loop of lines 513-520 is a no-op in the source). -/
def extract_map_command (raw text : String) (_r : AgentResponse) : Option Ev :=
  match (mapCmdMatches (raw ++ "\n" ++ text).data).getLast? with
  | none => none
  | some j => (json_loads j).map Ev.mapCmd

/-- Model of `OutputParser._extract_clear_map_command` (lines 545-577). -/
def extract_clear_map_command (raw text : String) (r : AgentResponse) :
    Option Ev :=
  if r.code_steps.any fun st => containsSub "clear_map()".data st.code.data
  then some Ev.clearMap
  else if containsSub "CLEAR_MAP_COMMAND".data (raw ++ "\n" ++ text).data
  then some Ev.clearMap
  else none

/-- Model of `OutputParser.parse` (lines 30-105).  `extractImages` stands for
`_extract_images`, whose behaviour depends on the filesystem; the source
version only ever constructs events of type `image`, which theorems assume
through an explicit hypothesis. -/
def parse (extractImages : String → AgentResponse → List Ev)
    (r : AgentResponse) : List Ev :=
  let text := r.text.getD ""
  let codeEvents := (extract_code_blocks r).map Ev.code
  let textCode :=
    if text ≠ "" then (extract_code_from_text text).map Ev.code else []
  let textEv : List Ev :=
    if text ≠ "" ∧ ¬ r.errorFlag then [Ev.text text]
    else if r.errorFlag then [Ev.error text]
    else []
  let hl := extract_room_highlights text
  let hlEv : List Ev := if hl ≠ [] then [Ev.highlight hl] else []
  codeEvents ++ textCode ++ textEv ++ extractImages r.raw_output r ++ hlEv ++
    extract_arrows r.raw_output text r ++
    (extract_clear_arrows r.raw_output text r).toList ++
    (extract_map_command r.raw_output text r).toList ++
    (extract_clear_map_command r.raw_output text r).toList

/-- The events of `parse` other than the map command: everything before it in
extraction order, then the clear-map command that follows it. -/
def parseOthers (extractImages : String → AgentResponse → List Ev)
    (r : AgentResponse) : List Ev :=
  let text := r.text.getD ""
  let codeEvents := (extract_code_blocks r).map Ev.code
  let textCode :=
    if text ≠ "" then (extract_code_from_text text).map Ev.code else []
  let textEv : List Ev :=
    if text ≠ "" ∧ ¬ r.errorFlag then [Ev.text text]
    else if r.errorFlag then [Ev.error text]
    else []
  let hl := extract_room_highlights text
  let hlEv : List Ev := if hl ≠ [] then [Ev.highlight hl] else []
  codeEvents ++ textCode ++ textEv ++ extractImages r.raw_output r ++ hlEv ++
    extract_arrows r.raw_output text r ++
    (extract_clear_arrows r.raw_output text r).toList ++
    (extract_clear_map_command r.raw_output text r).toList

/-- An image extractor that finds nothing (an empty filesystem). -/
def noImages : String → AgentResponse → List Ev := fun _ _ => []

/-- The `2d_map` object of the unified response.  The source always wraps it
as `{floor, area: {type: "map", content: {timestamp, rectangles, overlays}}}`
with the two constant middle layers, so only the four variable fields are
modelled; they hold raw JSON values because the map-command payload fields
are taken from the decoded dict without type checks. -/
structure TwoDMap where
  floor : Json
  timestamp : Json
  rectangles : Json
  overlays : Json

/-- One entry of the `images` array of the unified response (Python keys
`title`, `data`, `type`). -/
structure ImageOut where
  title : String
  data : String
  imgType : String
deriving Repr, DecidableEq

/-- The Phase 2.0 unified response.  `images` is modelled as a list that is
empty when the Python dict would lack the key (the key is only ever created
to append); `twoDMap` models presence of the `2d_map` key. -/
structure Unified where
  message : String
  agent : String
  images : List ImageOut
  twoDMap : Option TwoDMap

/-- Initial unified response of `generate_unified_response` (lines 594-597). -/
def initUnified : Unified := ⟨"", "smolAgent", [], none⟩

/-- Lookup in a decoded JSON object, modelling `dict.get`. -/
def jGet (kvs : List (String × Json)) (k : String) : Option Json :=
  (kvs.find? fun p => p.1 == k).map (·.2)

/-- Rectangle synthesized for one highlighted room (lines 657-664): fixed
blue highlight colour, fixed opacities, name label shown. -/
def roomRect (room : String) : Json :=
  Json.obj [("name", Json.str room), ("color", Json.str "#0066ff"),
            ("strokeOpacity", Json.num 1), ("fillOpacity", Json.num (3 / 10)),
            ("showName", Json.bool true)]

/-- The `2d_map` synthesized from a highlight_room event (lines 649-669):
default floor 1F, empty timestamp, one rectangle per room, no overlays. -/
def highlightMapOf (rooms : List String) : TwoDMap :=
  ⟨Json.str "1F", Json.str "", Json.arr (rooms.map roomRect), Json.arr []⟩

/-- Message text after merging a code block (lines 608-613). -/
def codeAppendMsg (msg : String) (cb : CodeBlock) : String :=
  if msg = "" then
    "Code generated:\n```" ++ cb.language ++ "\n" ++ cb.content ++ "\n```"
  else
    msg ++ "\n\n**Code (" ++ cb.step.getD "N/A" ++ ")**:\n```" ++
      cb.language ++ "\n" ++ cb.content ++ "\n```"

/-- One step of the event fold of `generate_unified_response` (lines
600-669).  Arrow, clear_arrows, clear_map and error events have no branch in
the source and leave the response unchanged. -/
def stepU (u : Unified) (e : Ev) : Unified :=
  match e with
  | Ev.text c => { u with message := c }
  | Ev.code cb => { u with message := codeAppendMsg u.message cb }
  | Ev.image data fmt path =>
    { u with images := u.images ++ [⟨path.getD "Generated Image", data, fmt⟩] }
  | Ev.mapCmd v =>
    match v with
    | Json.obj kvs =>
      { u with twoDMap := some ⟨(jGet kvs "floorId").getD (Json.str "1F"),
                                (jGet kvs "timestamp").getD (Json.str ""),
                                (jGet kvs "rectangles").getD (Json.arr []),
                                (jGet kvs "overlays").getD (Json.arr [])⟩ }
    | _ => u
  | Ev.highlight rooms =>
    if rooms ≠ [] ∧ u.twoDMap.isNone then
      { u with twoDMap := some (highlightMapOf rooms) }
    else u
  | _ => u

/-- The single unified response built by `generate_unified_response`: fold
the events, then (lines 671-673) replace a still-empty message by
`agent_response.get("text", "Response generated")` — note that this `dict.get`
default applies only when the `text` key is absent, not when it is empty. -/
def unifiedOf (r : AgentResponse) (es : List Ev) : Unified :=
  let u := es.foldl stepU initUnified
  if u.message = "" then { u with message := r.text.getD "Response generated" }
  else u

/-- Model of `OutputParser.generate_unified_response` (lines 579-676),
returning the single-element list of line 676. -/
def generate_unified_response (r : AgentResponse) (es : List Ev) :
    List Unified :=
  [unifiedOf r es]

/-- The rooms of the first highlight event with a nonempty room list. -/
def firstHL : List Ev → Option (List String)
  | [] => none
  | Ev.highlight rs :: es => if rs ≠ [] then some rs else firstHL es
  | _ :: es => firstHL es

/-- Point of the map model: pixel and virtual coordinates
(`map_manager.py` lines 19-25).  Numeric fields are rationals standing for
the JSON numbers, which the load path copies without arithmetic. -/
structure MPoint where
  px : Rat
  py : Rat
  x : Rat
  y : Rat
deriving Repr, DecidableEq

/-- Virtual coordinate (lines 12-16). -/
structure MCoordinate where
  x : Rat
  y : Rat
deriving Repr, DecidableEq

/-- Coordinate system of a floor (lines 28-34). -/
structure MCoordinateSystem where
  topLeft : MPoint
  bottomRight : MPoint
  scaleX : Rat
  scaleY : Rat
deriving Repr, DecidableEq

/-- Named rectangle of a floor (lines 37-44). -/
structure MRectangle where
  name : String
  topLeft : MCoordinate
  bottomRight : MCoordinate
  width : Rat
  height : Rat
deriving Repr, DecidableEq

/-- Floor definition (lines 47-54). -/
structure MFloor where
  floorId : String
  floorName : String
  floorImage : String
  coordinateSystem : MCoordinateSystem
  rectangles : List MRectangle
deriving Repr, DecidableEq

/-- Bitmap resource (lines 57-62). -/
structure MBitmap where
  bitmapId : String
  bitmapName : String
  bitmapFile : String
deriving Repr, DecidableEq

/-- Complete map definition (lines 65-69). -/
structure MapDefinition where
  floors : List MFloor
  bitmaps : List MBitmap
deriving Repr, DecidableEq

/-- A point of the persisted floor-plan source (`coordinateSystem.topLeft`
and `.bottomRight` entries, keys px/py/x/y). -/
structure LegacyPoint where
  px : Rat
  py : Rat
  x : Rat
  y : Rat
deriving Repr, DecidableEq

/-- Coordinate-system entry of the persisted floor-plan source. -/
structure LegacyCoordSys where
  topLeft : LegacyPoint
  bottomRight : LegacyPoint
  scaleX : Rat
  scaleY : Rat
deriving Repr, DecidableEq

/-- An x/y pair of a source rectangle corner. -/
structure LegacyXY where
  x : Rat
  y : Rat
deriving Repr, DecidableEq

/-- Rectangle entry of the persisted floor-plan source. -/
structure LegacyRect where
  name : String
  topLeft : LegacyXY
  bottomRight : LegacyXY
  width : Rat
  height : Rat
deriving Repr, DecidableEq

/-- The decoded rectangles JSON document read by `load_legacy_data`. -/
structure LegacyData where
  coordinateSystem : LegacyCoordSys
  rectangles : List LegacyRect
deriving Repr, DecidableEq

/-- Model of `MapManager.load_legacy_data` (lines 86-141), taking the decoded
JSON document in place of the file read and the scanned bitmap list in place
of the `_scan_bitmaps` disk probe: each field is copied into the dataclasses
with no arithmetic. -/
def load_legacy_data (d : LegacyData) (floor_image floor_id floor_name : String)
    (scanned : List MBitmap) : MapDefinition :=
  let cs : MCoordinateSystem :=
    ⟨⟨d.coordinateSystem.topLeft.px, d.coordinateSystem.topLeft.py,
      d.coordinateSystem.topLeft.x, d.coordinateSystem.topLeft.y⟩,
     ⟨d.coordinateSystem.bottomRight.px, d.coordinateSystem.bottomRight.py,
      d.coordinateSystem.bottomRight.x, d.coordinateSystem.bottomRight.y⟩,
     d.coordinateSystem.scaleX, d.coordinateSystem.scaleY⟩
  let rects : List MRectangle := d.rectangles.map fun rect =>
    ⟨rect.name, ⟨rect.topLeft.x, rect.topLeft.y⟩,
     ⟨rect.bottomRight.x, rect.bottomRight.y⟩, rect.width, rect.height⟩
  ⟨[⟨floor_id, floor_name, floor_image, cs, rects⟩], scanned⟩

/-- Number of code blocks with a given content. -/
def countC (c : String) (l : List CodeBlock) : Nat :=
  l.countP fun b => b.content == c

/-- A concrete floor-plan source document with three rectangles and a
coordinate system, for evaluating the load path. -/
def sampleLegacyData : LegacyData :=
  ⟨⟨⟨0, 0, 0, 0⟩, ⟨100, 80, 10, 8⟩, 1 / 10, 1 / 10⟩,
   [⟨"R1", ⟨0, 0⟩, ⟨1, 1⟩, 1, 1⟩,
    ⟨"R2", ⟨1, 0⟩, ⟨2, 1⟩, 1, 1⟩,
    ⟨"R3", ⟨0, 1⟩, ⟨1, 2⟩, 1, 1⟩]⟩

/-- Every element produced by a `scanWith` loop is a full match of the
underlying matcher at some position. -/
theorem mem_scanWith {α : Type} {f : List Char → Option (α × List Char)} :
    ∀ {fuel : Nat} {s : List Char} {a : α}, a ∈ scanWith f fuel s →
      ∃ u r, f u = some (a, r) := by
  intro fuel
  induction fuel with
  | zero => intro s a h; simp [scanWith] at h
  | succ n ih =>
    intro s a h
    match s with
    | [] => simp [scanWith] at h
    | c :: cs =>
      cases hf : f (c :: cs) with
      | none =>
        simp only [scanWith, hf] at h
        exact ih h
      | some m =>
        obtain ⟨m1, m2⟩ := m
        simp only [scanWith, hf] at h
        rcases List.mem_cons.mp h with h1 | h2
        · exact ⟨c :: cs, m2, by rw [hf, h1]⟩
        · exact ih h2

/-- A successful case-insensitive literal match pins down the lowercase form
of the consumed slice. -/
theorem dropCI_take {pat : List Char} :
    ∀ {s r : List Char}, dropCI pat s = some r →
      lowL (s.take pat.length) = pat := by
  induction pat with
  | nil => intro s r _; simp [lowL]
  | cons p ps ih =>
    intro s r h
    match s with
    | [] => simp [dropCI] at h
    | c :: cs =>
      simp only [dropCI] at h
      split at h
      · next hcp =>
        simp only [List.length_cons, List.take_succ_cons, lowL, List.map_cons,
          List.cons.injEq]
        exact ⟨by simpa using hcp, ih h⟩
      · exact absurd h (by simp)

/-- The slice captured by `tryDir` lowercases to the tried literal. -/
theorem tryDir_low {pat s d r : List Char} (h : tryDir pat s = some (d, r)) :
    lowL d = pat := by
  unfold tryDir at h
  rcases Option.map_eq_some'.mp h with ⟨r0, hd, heq⟩
  have h1 : s.take pat.length = d := congrArg Prod.fst heq
  rw [← h1]
  exact dropCI_take hd

/-- The alternation `(up|down|left|right)` only captures slices whose
lowercase form is one of the four direction words. -/
theorem matchDir_low {s d r : List Char} (h : matchDir s = some (d, r)) :
    lowL d = "up".data ∨ lowL d = "down".data ∨ lowL d = "left".data ∨
      lowL d = "right".data := by
  unfold matchDir at h
  cases h1 : tryDir "up".data s with
  | some m =>
    simp only [h1] at h
    obtain rfl := Option.some.inj h
    exact Or.inl (tryDir_low h1)
  | none =>
    simp only [h1] at h
    cases h2 : tryDir "down".data s with
    | some m =>
      simp only [h2] at h
      obtain rfl := Option.some.inj h
      exact Or.inr (Or.inl (tryDir_low h2))
    | none =>
      simp only [h2] at h
      cases h3 : tryDir "left".data s with
      | some m =>
        simp only [h3] at h
        obtain rfl := Option.some.inj h
        exact Or.inr (Or.inr (Or.inl (tryDir_low h3)))
      | none =>
        simp only [h3] at h
        exact Or.inr (Or.inr (Or.inr (tryDir_low h)))

/-- A full tagged-arrow match always carries a direction capture whose
lowercase string is one of the four direction words. -/
theorem tryArrowCmdAt_dir {s rm d : List Char} {rest : List Char}
    (h : tryArrowCmdAt s = some ((rm, d), rest)) :
    lowerStr d ∈ (["up", "down", "left", "right"] : List String) := by
  unfold tryArrowCmdAt at h
  rcases Option.bind_eq_some.mp h with ⟨r0, _, h⟩
  rcases Option.bind_eq_some.mp h with ⟨r2, _, h⟩
  simp only [] at h
  split at h
  · exact absurd h (by simp)
  · split at h
    · next =>
      rcases Option.bind_eq_some.mp h with ⟨r5, _, h⟩
      rcases Option.map_eq_some'.mp h with ⟨dr, hdr, heq⟩
      have hd : d = dr.1 := by
        have := congrArg Prod.snd (congrArg Prod.fst heq)
        simpa using this.symm
      have hmd : matchDir r5 = some (dr.1, dr.2) := by simpa using hdr
      rcases matchDir_low hmd with h1 | h1 | h1 | h1 <;>
        simp [lowerStr, hd, h1]
    · exact absurd h (by simp)

/-- Membership in the deduplicating arrow fold comes either from the
accumulator or from one of the matches, strip-and-lowercased. -/
theorem arrowDedupFold_mem {p : String × String} :
    ∀ {ms : List (List Char × List Char)} {acc : List (String × String)},
      p ∈ arrowDedupFold acc ms →
      p ∈ acc ∨ ∃ m ∈ ms, p = (stripStr m.1, lowerStr m.2) := by
  intro ms
  induction ms with
  | nil => intro acc h; exact Or.inl h
  | cons m ms ih =>
    intro acc h
    have h' : p ∈ arrowDedupFold
        (if acc.any (fun a => a.1 == String.mk m.1 && a.2 == lowerStr m.2)
         then acc else acc ++ [(stripStr m.1, lowerStr m.2)]) ms := by
      simpa [arrowDedupFold] using h
    rcases ih h' with h1 | h2
    · split at h1
      · exact Or.inl h1
      · rcases List.mem_append.mp h1 with h3 | h3
        · exact Or.inl h3
        · exact Or.inr ⟨m, List.mem_cons_self .., by simpa using h3⟩
    · rcases h2 with ⟨m', hm', hp⟩
      exact Or.inr ⟨m', List.mem_cons_of_mem _ hm', hp⟩

/-- When every room capture is already stripped, the deduplicating arrow fold
preserves the no-duplicates invariant: a pair is only appended after the
membership test rules it out of the accumulator. -/
theorem arrowDedupFold_nodup :
    ∀ {ms : List (List Char × List Char)} {acc : List (String × String)},
      acc.Nodup → (∀ m ∈ ms, stripStr m.1 = String.mk m.1) →
      (arrowDedupFold acc ms).Nodup := by
  intro ms
  induction ms with
  | nil => intro acc ha _; exact ha
  | cons m ms ih =>
    intro acc ha hm
    have hstep : arrowDedupFold acc (m :: ms) = arrowDedupFold
        (if acc.any (fun a => a.1 == String.mk m.1 && a.2 == lowerStr m.2)
         then acc else acc ++ [(stripStr m.1, lowerStr m.2)]) ms := by
      simp [arrowDedupFold]
    rw [hstep]
    split
    · exact ih ha fun x hx => hm x (List.mem_cons_of_mem _ hx)
    · next hany =>
      refine ih ?_ fun x hx => hm x (List.mem_cons_of_mem _ hx)
      have hnotmem : (stripStr m.1, lowerStr m.2) ∉ acc := by
        intro hmem
        apply hany
        refine List.any_eq_true.mpr ⟨_, hmem, ?_⟩
        simp [hm m (List.mem_cons_self ..)]
      simp [List.nodup_append, ha, hnotmem]

/-- C3 (corrected claim refuted here): a draw_arrow call whose direction
token is outside the four-direction set still produces an Arrow event — the
draw_arrow capture group accepts any nonempty quoted token, so
`direction="sideways"` is emitted as an Arrow with direction `sideways`,
contradicting the claim that such input produces no Arrow event. -/
theorem arrow_direction_cex :
    extract_arrows "draw_arrow(room_name=\"Kitchen\", direction=\"sideways\")"
        ""
        ⟨some "",
         "draw_arrow(room_name=\"Kitchen\", direction=\"sideways\")",
         [], [], false⟩ =
      [Ev.arrow "Kitchen" "sideways"] ∧
    "sideways" ∉ (["up", "down", "left", "right"] : List String) :=
  ⟨rfl, by decide⟩

/-- C3 (amended): when no draw_arrow call matches anywhere (neither in the
code steps nor in the combined raw output and text), every Arrow event comes
from the tagged `ARROW_COMMAND` pattern, whose direction alternation only
matches the four direction words, so every emitted direction is one of
`up`, `down`, `left`, `right` in lowercase.  Directions captured from
draw_arrow calls are lowercased but not validated. -/
theorem arrow_direction_amended (raw text : String) (r : AgentResponse)
    (hsteps : arrowsFromSteps r.code_steps = [])
    (hdraw : scanDraw (raw ++ "\n" ++ text).data = []) :
    ∀ room d, Ev.arrow room d ∈ extract_arrows raw text r →
      d ∈ (["up", "down", "left", "right"] : List String) := by
  intro room d hmem
  unfold extract_arrows at hmem
  rcases List.mem_map.mp hmem with ⟨p, hp, hpe⟩
  have hpd : p.2 = d := by
    have := congrArg (fun e => match e with
      | Ev.arrow _ dd => dd
      | _ => "") hpe
    simpa using this
  unfold arrowPairs at hp
  rw [hsteps] at hp
  simp only [] at hp
  rw [hdraw] at hp
  rcases arrowDedupFold_mem hp with h1 | h2
  · rcases arrowDedupFold_mem h1 with h3 | h4
    · exact absurd h3 (List.not_mem_nil p)
    · rcases h4 with ⟨m, hm, hpm⟩
      obtain ⟨m1, m2⟩ := m
      rcases mem_scanWith hm with ⟨u, rr, hu⟩
      have hd2 : p.2 = lowerStr m2 := congrArg Prod.snd hpm
      rw [← hpd, hd2]
      exact @tryArrowCmdAt_dir u m1 m2 rr hu
  · rcases h2 with ⟨m, hm, _⟩
    simp at hm

/-- C4 (corrected claim refuted here): two code steps containing the same
draw_arrow call yield two identical Arrow events — the code_steps pass
appends matches without consulting the dedup list, so the extracted event
list does contain two Arrow events with the same room and direction. -/
theorem arrow_dedup_cex :
    extract_arrows "" ""
        ⟨some "", "",
         [⟨none, "draw_arrow(room_name=\"Kitchen\", direction=\"left\")"⟩,
          ⟨none, "draw_arrow(room_name=\"Kitchen\", direction=\"left\")"⟩],
         [], false⟩ =
      [Ev.arrow "Kitchen" "left", Ev.arrow "Kitchen" "left"] ∧
    ¬ (arrowPairs "" ""
        ⟨some "", "",
         [⟨none, "draw_arrow(room_name=\"Kitchen\", direction=\"left\")"⟩,
          ⟨none, "draw_arrow(room_name=\"Kitchen\", direction=\"left\")"⟩],
         [], false⟩).Nodup :=
  ⟨rfl, by decide⟩

/-- C4 (amended): the dedup set protects only the two passes over the
combined raw output and text; when the code_steps pass contributes no arrow
and every matched room token is already stripped (the membership test
compares the unstripped token against stored stripped rooms), the extracted
Arrow events are pairwise distinct in (room, direction). -/
theorem arrow_dedup_amended (raw text : String) (r : AgentResponse)
    (hsteps : arrowsFromSteps r.code_steps = [])
    (hcmd : ∀ m ∈ scanArrowCmd (raw ++ "\n" ++ text).data,
      stripStr m.1 = String.mk m.1)
    (hdraw : ∀ m ∈ scanDraw (raw ++ "\n" ++ text).data,
      stripStr m.1 = String.mk m.1) :
    (extract_arrows raw text r).Nodup := by
  unfold extract_arrows
  refine List.Nodup.map ?_ ?_
  · intro a b hab
    have h1 : a.1 = b.1 := by
      have := congrArg (fun e => match e with
        | Ev.arrow rm _ => rm
        | _ => "") hab
      simpa using this
    have h2 : a.2 = b.2 := by
      have := congrArg (fun e => match e with
        | Ev.arrow _ dd => dd
        | _ => "") hab
      simpa using this
    exact Prod.ext h1 h2
  · unfold arrowPairs
    rw [hsteps]
    exact arrowDedupFold_nodup (arrowDedupFold_nodup List.nodup_nil hcmd) hdraw

/-- C4 (witness): the amended theorem applied to a concrete input with one
tagged arrow command; all hypotheses hold by evaluation. -/
theorem arrow_dedup_amended_witness :
    (arrowsFromSteps ([] : List AgentStep) = [] ∧
      (∀ m ∈ scanArrowCmd ("ARROW_COMMAND: room=Kitchen, direction=LEFT" ++
          "\n" ++ "").data, stripStr m.1 = String.mk m.1) ∧
      (∀ m ∈ scanDraw ("ARROW_COMMAND: room=Kitchen, direction=LEFT" ++
          "\n" ++ "").data, stripStr m.1 = String.mk m.1)) ∧
    (extract_arrows "ARROW_COMMAND: room=Kitchen, direction=LEFT" ""
      ⟨some "", "ARROW_COMMAND: room=Kitchen, direction=LEFT", [], [],
       false⟩).Nodup :=
  ⟨⟨rfl, by decide, by decide⟩,
   arrow_dedup_amended "ARROW_COMMAND: room=Kitchen, direction=LEFT" ""
     ⟨some "", "ARROW_COMMAND: room=Kitchen, direction=LEFT", [], [], false⟩
     rfl (by decide) (by decide)⟩

/-- C3 (witness): the amended theorem applied to a concrete tagged arrow
command with an uppercase direction: the emitted event is
`Arrow Kitchen left` and its direction is in the lowercase set. -/
theorem arrow_direction_amended_witness :
    (arrowsFromSteps ([] : List AgentStep) = [] ∧
      scanDraw ("ARROW_COMMAND: room=Kitchen, direction=LEFT" ++ "\n" ++
        "").data = [] ∧
      Ev.arrow "Kitchen" "left" ∈
        extract_arrows "ARROW_COMMAND: room=Kitchen, direction=LEFT" ""
          ⟨some "", "ARROW_COMMAND: room=Kitchen, direction=LEFT", [], [],
           false⟩) ∧
    "left" ∈ (["up", "down", "left", "right"] : List String) :=
  ⟨⟨rfl, rfl, List.mem_singleton.mpr rfl⟩,
   arrow_direction_amended "ARROW_COMMAND: room=Kitchen, direction=LEFT" ""
     ⟨some "", "ARROW_COMMAND: room=Kitchen, direction=LEFT", [], [], false⟩
     rfl rfl "Kitchen" "left" (List.mem_singleton.mpr rfl)⟩

/-- C5 (corrected claim refuted here): an arrow command may carry a room
name outside the fixed registry — `room=Lounge` is emitted verbatim even
though `Lounge` is not a registered room name. -/
theorem room_registry_cex :
    extract_arrows "ARROW_COMMAND: room=Lounge, direction=up" ""
        ⟨some "", "ARROW_COMMAND: room=Lounge, direction=up", [], [],
         false⟩ =
      [Ev.arrow "Lounge" "up"] ∧
    "Lounge" ∉ room_names :=
  ⟨rfl, by decide⟩

/-- C5 (amended): every room name carried by a HighlightRoom event belongs
to the fixed registry, because the highlight extractor filters the registry
itself; Arrow events carry the matched room token without validation. -/
theorem room_registry_amended (text : String) :
    ∀ room ∈ extract_room_highlights text, room ∈ room_names := by
  intro room h
  unfold extract_room_highlights at h
  split at h
  · simp at h
  · exact (List.mem_filter.mp h).1

/-- C5 (witness): the amended theorem applied to a concrete text mentioning
the Kitchen. -/
theorem room_registry_amended_witness :
    "Kitchen" ∈ extract_room_highlights "check the Kitchen area" ∧
      "Kitchen" ∈ room_names :=
  ⟨by decide,
   room_registry_amended "check the Kitchen area" "Kitchen" (by decide)⟩

/-- One step of the deduplicating code fold, spelled out. -/
theorem dedupFoldStrip_cons (acc : List CodeBlock) (m : List Char)
    (ms : List (List Char)) :
    dedupFoldStrip acc (m :: ms) = dedupFoldStrip
      (if String.mk (pyStrip m) = "" ∨
          acc.any (fun b => b.content == String.mk (pyStrip m))
       then acc
       else acc ++ [⟨String.mk (pyStrip m), "python", none, none⟩]) ms := by
  simp [dedupFoldStrip]

/-- If blocks of content `c` are already present, the deduplicating passes
never add another: the count of `c` is unchanged. -/
theorem dedupFoldStrip_count_pos {c : String} :
    ∀ {ms : List (List Char)} {acc : List CodeBlock}, 0 < countC c acc →
      countC c (dedupFoldStrip acc ms) = countC c acc := by
  intro ms
  induction ms with
  | nil => intro acc _; rfl
  | cons m ms ih =>
    intro acc h
    rw [dedupFoldStrip_cons]
    split
    · exact ih h
    · next hcond =>
      have hne : String.mk (pyStrip m) ≠ c := by
        intro he
        rcases List.countP_pos_iff.mp h with ⟨b, hb, hbc⟩
        exact hcond (Or.inr (List.any_eq_true.mpr ⟨b, hb, by rw [he]; exact hbc⟩))
      have hcnt : countC c (acc ++ [⟨String.mk (pyStrip m), "python", none,
          none⟩]) = countC c acc := by
        unfold countC
        rw [List.countP_append]
        simp [hne]
      rw [ih (hcnt ▸ h), hcnt]

/-- If no block of nonempty content `c` is present yet, the deduplicating
passes add exactly one block of content `c` when `c` occurs among the
stripped matches, and none otherwise. -/
theorem dedupFoldStrip_count_zero {c : String} (hc : c ≠ "") :
    ∀ {ms : List (List Char)} {acc : List CodeBlock}, countC c acc = 0 →
      countC c (dedupFoldStrip acc ms) =
        if c ∈ ms.map (fun m => String.mk (pyStrip m)) then 1 else 0 := by
  intro ms
  induction ms with
  | nil => intro acc h; simpa [dedupFoldStrip] using h
  | cons m ms ih =>
    intro acc h
    rw [dedupFoldStrip_cons]
    by_cases hmc : String.mk (pyStrip m) = c
    · have hany : ¬ (String.mk (pyStrip m) = "" ∨
          acc.any (fun b => b.content == String.mk (pyStrip m)) = true) := by
        rintro (h1 | h1)
        · exact hc (hmc ▸ h1)
        · rcases List.any_eq_true.mp h1 with ⟨b, hb, hbc⟩
          have : countC c acc ≠ 0 :=
            Nat.pos_iff_ne_zero.mp (List.countP_pos_iff.mpr ⟨b, hb, hmc ▸ hbc⟩)
          exact this h
      rw [if_neg hany]
      have hone : countC c (acc ++ [⟨String.mk (pyStrip m), "python", none,
          none⟩]) = 1 := by
        unfold countC at h ⊢
        rw [List.countP_append, h]
        simp [hmc]
      have hpos : 0 < countC c (acc ++ [⟨String.mk (pyStrip m), "python",
          none, none⟩]) := by
        rw [hone]
        exact Nat.zero_lt_one
      rw [dedupFoldStrip_count_pos hpos, hone]
      simp [hmc]
    · have hstay : ∀ acc' : List CodeBlock,
          (acc' = acc ∨ acc' = acc ++ [⟨String.mk (pyStrip m), "python", none,
            none⟩]) → countC c acc' = 0 := by
        rintro acc' (rfl | rfl)
        · exact h
        · unfold countC
          rw [List.countP_append]
          unfold countC at h
          simp [h, hmc]
      have hmc' : c ≠ String.mk (pyStrip m) := fun he => hmc he.symm
      split
      · rw [ih (hstay _ (Or.inl rfl))]
        simp [hmc']
      · rw [ih (hstay _ (Or.inr rfl))]
        simp [hmc']

/-- C1 (corrected claim refuted here): a code string present in both
codeSteps and rawOutput as a language-tagged fenced block yields two Code
events, because the tagged-fence pass never consults the dedup set; the
claimed exactly-one property fails. -/
theorem code_dedup_cex :
    List.countP
        (fun e => match e with
          | Ev.code cb => cb.content == "x = 1"
          | _ => false)
        (parse noImages
          ⟨some "", "```python\nx = 1\n```", [⟨some "Step 1", "x = 1"⟩],
           [], false⟩) = 2 := by
  decide

/-- C1 (amended): dedup by exact trimmed text protects only the later passes
of `_extract_code_blocks` (the labelled pass and the untagged-fence
re-scan).  With no logs and a nonempty raw output, the number of Code blocks
with a given nonempty content `c` equals its count among the codeSteps-pass
and tagged-fence-pass blocks when that count is positive (the later passes
add nothing), and otherwise is one exactly when `c` occurs among the later
passes' stripped matches.  In particular a code string present in both
codeSteps and rawOutput yields exactly one Code event only when the
rawOutput occurrence is in labelled or untagged-rescan form; fenced
occurrences (and fenced blocks in the final text, extracted independently)
each add another event. -/
theorem code_dedup_amended (r : AgentResponse) (c : String) (hc : c ≠ "")
    (hlogs : r.logs = []) (hraw : r.raw_output ≠ "") :
    (0 < countC c (baseBlocks r) →
      countC c (extract_code_blocks r) = countC c (baseBlocks r)) ∧
    (countC c (baseBlocks r) = 0 →
      countC c (extract_code_blocks r) =
        if c ∈ ((labelMatches r.raw_output.data ++
            simpleFenceMatches r.raw_output.data).map
            fun m => String.mk (pyStrip m)) then 1 else 0) := by
  have hext : extract_code_blocks r =
      dedupFoldStrip (baseBlocks r)
        (labelMatches r.raw_output.data ++
          simpleFenceMatches r.raw_output.data) := by
    unfold extract_code_blocks
    rw [hlogs, if_neg hraw]
    simp [logsFold, dedupFoldStrip, List.foldl_append]
  constructor
  · intro hpos
    rw [hext]
    exact dedupFoldStrip_count_pos hpos
  · intro hzero
    rw [hext]
    exact dedupFoldStrip_count_zero hc hzero

/-- C1 (witness): on a concrete response holding the same code in a code
step and in a tagged fenced block, the amended theorem's first branch
applies: the deduplicating passes add nothing, leaving the two base
occurrences. -/
theorem code_dedup_amended_witness :
    0 < countC "a = 1"
        (baseBlocks ⟨some "", "```python\na = 1\n```",
          [⟨some "Step 1", "a = 1"⟩], [], false⟩) ∧
    countC "a = 1"
        (extract_code_blocks ⟨some "", "```python\na = 1\n```",
          [⟨some "Step 1", "a = 1"⟩], [], false⟩) =
      countC "a = 1"
        (baseBlocks ⟨some "", "```python\na = 1\n```",
          [⟨some "Step 1", "a = 1"⟩], [], false⟩) :=
  ⟨by decide,
   (code_dedup_amended
      ⟨some "", "```python\na = 1\n```", [⟨some "Step 1", "a = 1"⟩], [],
       false⟩ "a = 1" (by decide) rfl (by decide)).1 (by decide)⟩

/-- Filtering for map events over a list that has none yields nothing. -/
theorem filter_isMap_nonmap {l : List Ev} (h : ∀ e ∈ l, isMapEv e = false) :
    l.filter isMapEv = [] :=
  List.filter_eq_nil_iff.mpr fun e he => by rw [h e he]; exact Bool.false_ne_true

/-- Filtering out map events over a list that has none is the identity. -/
theorem filter_not_isMap_self {l : List Ev} (h : ∀ e ∈ l, isMapEv e = false) :
    l.filter (fun e => !(isMapEv e)) = l :=
  List.filter_eq_self.mpr fun e he => by rw [h e he]; rfl

/-- Code events are not map events. -/
theorem isMap_false_code {l : List CodeBlock} :
    ∀ e ∈ l.map Ev.code, isMapEv e = false := by
  intro e he
  rcases List.mem_map.mp he with ⟨b, _, rfl⟩
  rfl

/-- Arrow events are not map events. -/
theorem isMap_false_arrow {l : List (String × String)} :
    ∀ e ∈ l.map (fun p => Ev.arrow p.1 p.2), isMapEv e = false := by
  intro e he
  rcases List.mem_map.mp he with ⟨p, _, rfl⟩
  rfl

/-- Image events are not map events. -/
theorem isMap_false_of_image {e : Ev} (h : isImageEv e = true) :
    isMapEv e = false := by
  cases e <;> simp_all [isImageEv, isMapEv]

/-- The arrow extractor yields no map events. -/
theorem isMap_false_extract_arrows {raw text : String} {r : AgentResponse} :
    ∀ e ∈ extract_arrows raw text r, isMapEv e = false := by
  intro e he
  unfold extract_arrows at he
  exact isMap_false_arrow e he

/-- The text-or-error segment of `parse` holds no map events. -/
theorem isMap_false_textEv {text : String} {flag : Bool} :
    ∀ e ∈ (if text ≠ "" ∧ ¬ flag then [Ev.text text]
           else if flag then [Ev.error text] else []), isMapEv e = false := by
  intro e he
  split at he
  · simp only [List.mem_singleton] at he
    subst he; rfl
  · split at he
    · simp only [List.mem_singleton] at he
      subst he; rfl
    · simp at he

/-- The highlight segment of `parse` holds no map events. -/
theorem isMap_false_hlEv {hl : List String} :
    ∀ e ∈ (if hl ≠ [] then [Ev.highlight hl] else []), isMapEv e = false := by
  intro e he
  split at he
  · simp only [List.mem_singleton] at he
    subst he; rfl
  · simp at he

/-- The clear-arrows extractor yields no map events. -/
theorem isMap_false_clear {raw text : String} {r : AgentResponse} :
    ∀ e ∈ (extract_clear_arrows raw text r).toList, isMapEv e = false := by
  intro e he
  unfold extract_clear_arrows at he
  split at he
  · simp only [Option.toList_some, List.mem_singleton] at he
    subst he; rfl
  · split at he
    · simp only [Option.toList_some, List.mem_singleton] at he
      subst he; rfl
    · simp at he

/-- The clear-map extractor yields no map events. -/
theorem isMap_false_clearMap {raw text : String} {r : AgentResponse} :
    ∀ e ∈ (extract_clear_map_command raw text r).toList, isMapEv e = false := by
  intro e he
  unfold extract_clear_map_command at he
  split at he
  · simp only [Option.toList_some, List.mem_singleton] at he
    subst he; rfl
  · split at he
    · simp only [Option.toList_some, List.mem_singleton] at he
      subst he; rfl
    · simp at he

/-- The map-command extractor yields only map events. -/
theorem isMap_true_mapCmd {raw text : String} {r : AgentResponse} :
    ∀ e ∈ (extract_map_command raw text r).toList, isMapEv e = true := by
  intro e he
  unfold extract_map_command at he
  split at he
  · simp at he
  · next j hj =>
    cases hl : json_loads j with
    | none => rw [hl] at he; simp at he
    | some v =>
      rw [hl] at he
      simp only [Option.map_some', Option.toList_some,
        List.mem_singleton] at he
      subst he; rfl

/-- With at least one tag present, the map-command extractor is the decode of
the last captured payload. -/
theorem extract_map_command_last (raw text : String) (r : AgentResponse)
    (hne : mapCmdMatches (raw ++ "\n" ++ text).data ≠ []) :
    extract_map_command raw text r =
      (json_loads ((mapCmdMatches (raw ++ "\n" ++ text).data).getLastD
        [])).map Ev.mapCmd := by
  unfold extract_map_command
  cases hl : (mapCmdMatches (raw ++ "\n" ++ text).data).getLast? with
  | none => exact absurd (List.getLast?_eq_none_iff.mp hl) hne
  | some j =>
    have hd : (mapCmdMatches (raw ++ "\n" ++ text).data).getLastD [] = j := by
      rw [List.getLastD_eq_getLast?, hl]
      rfl
    rw [hd]

/-- C2 (confirmed): with two or more `MAP_COMMAND:` tags in the combined raw
output and text, the parse stream's map events are exactly the decode of the
last tag's JSON payload — a single MapCommand event with that payload when it
decodes, and none when it is malformed — and the non-map events are exactly
the other extractors' output either way. -/
theorem map_command_last_wins (fImg : String → AgentResponse → List Ev)
    (hImg : ∀ s rr e, e ∈ fImg s rr → isImageEv e = true)
    (r : AgentResponse)
    (h2 : 2 ≤ (mapCmdMatches
      (r.raw_output ++ "\n" ++ r.text.getD "").data).length) :
    (parse fImg r).filter isMapEv =
      ((json_loads ((mapCmdMatches
          (r.raw_output ++ "\n" ++ r.text.getD "").data).getLastD
          [])).map Ev.mapCmd).toList ∧
    (parse fImg r).filter (fun e => !(isMapEv e)) = parseOthers fImg r := by
  have hne : mapCmdMatches (r.raw_output ++ "\n" ++ r.text.getD "").data ≠ [] := by
    intro h0
    rw [h0] at h2
    simp at h2
  have hlast := extract_map_command_last r.raw_output (r.text.getD "") r hne
  have htc : ∀ e ∈ (if (r.text.getD "") ≠ "" then
      (extract_code_from_text (r.text.getD "")).map Ev.code else []),
      isMapEv e = false := by
    intro e he
    split at he
    · exact isMap_false_code e he
    · simp at he
  have himgs : ∀ e ∈ fImg r.raw_output r, isMapEv e = false :=
    fun e he => isMap_false_of_image (hImg _ _ e he)
  have hmapfull : (extract_map_command r.raw_output (r.text.getD "") r).toList.filter
      isMapEv = (extract_map_command r.raw_output (r.text.getD "") r).toList :=
    List.filter_eq_self.mpr fun e he => isMap_true_mapCmd e he
  have hmapnone : (extract_map_command r.raw_output (r.text.getD "")
      r).toList.filter (fun e => !(isMapEv e)) = [] :=
    List.filter_eq_nil_iff.mpr fun e he => by
      rw [isMap_true_mapCmd e he]
      simp
  constructor
  · show (parse fImg r).filter isMapEv = _
    unfold parse
    simp only [List.filter_append]
    rw [filter_isMap_nonmap isMap_false_code,
      filter_isMap_nonmap htc,
      filter_isMap_nonmap isMap_false_textEv,
      filter_isMap_nonmap himgs,
      filter_isMap_nonmap isMap_false_hlEv,
      filter_isMap_nonmap isMap_false_extract_arrows,
      filter_isMap_nonmap isMap_false_clear,
      filter_isMap_nonmap isMap_false_clearMap,
      hmapfull, hlast]
    simp
  · show (parse fImg r).filter (fun e => !(isMapEv e)) = _
    unfold parse parseOthers
    simp only [List.filter_append]
    rw [filter_not_isMap_self isMap_false_code,
      filter_not_isMap_self htc,
      filter_not_isMap_self isMap_false_textEv,
      filter_not_isMap_self himgs,
      filter_not_isMap_self isMap_false_hlEv,
      filter_not_isMap_self isMap_false_extract_arrows,
      filter_not_isMap_self isMap_false_clear,
      filter_not_isMap_self isMap_false_clearMap,
      hmapnone]
    simp

/-- C2 (witness): the theorem applied to a concrete response carrying two
map-command tags, the second decoding to an object with floorId 2F: the
parse stream contains exactly that MapCommand event. -/
theorem map_command_last_wins_witness :
    (∀ s rr e, e ∈ noImages s rr → isImageEv e = true) ∧
    2 ≤ (mapCmdMatches
      (("MAP_COMMAND: \x7b\"a\": 1\x7d\nMAP_COMMAND: \x7b\"floorId\": \"2F\"\x7d" :
        String) ++ "\n" ++ (some "" : Option String).getD "").data).length ∧
    (parse noImages
        ⟨some "",
         "MAP_COMMAND: \x7b\"a\": 1\x7d\nMAP_COMMAND: \x7b\"floorId\": \"2F\"\x7d",
         [], [], false⟩).filter isMapEv =
      ((json_loads ((mapCmdMatches
          (("MAP_COMMAND: \x7b\"a\": 1\x7d\nMAP_COMMAND: \x7b\"floorId\": \"2F\"\x7d" :
            String) ++ "\n" ++ (some "" : Option String).getD
            "").data).getLastD [])).map Ev.mapCmd).toList :=
  ⟨fun _ _ e he => absurd he (List.not_mem_nil e),
   by decide,
   (map_command_last_wins noImages
     (fun _ _ e he => absurd he (List.not_mem_nil e))
     ⟨some "",
      "MAP_COMMAND: \x7b\"a\": 1\x7d\nMAP_COMMAND: \x7b\"floorId\": \"2F\"\x7d",
      [], [], false⟩ (by decide)).1⟩

/-- No merge branch of the fold ever touches the fixed agent label. -/
theorem stepU_agent (u : Unified) (e : Ev) : (stepU u e).agent = u.agent := by
  cases e with
  | mapCmd v => cases v <;> rfl
  | highlight rooms =>
    simp only [stepU]
    split <;> rfl
  | text c => rfl
  | code cb => rfl
  | image a b c => rfl
  | arrow a b => rfl
  | clearArrows => rfl
  | clearMap => rfl
  | error c => rfl

/-- The whole fold preserves the agent label. -/
theorem foldl_stepU_agent : ∀ (es : List Ev) (u : Unified),
    (es.foldl stepU u).agent = u.agent := by
  intro es
  induction es with
  | nil => intro u; rfl
  | cons e es ih =>
    intro u
    rw [List.foldl_cons, ih, stepU_agent]

/-- Events other than text and code never touch the message. -/
theorem stepU_message_of {u : Unified} {e : Ev} (h : touchesMsg e = false) :
    (stepU u e).message = u.message := by
  cases e with
  | text c => simp [touchesMsg] at h
  | code cb => simp [touchesMsg] at h
  | mapCmd v => cases v <;> rfl
  | highlight rooms =>
    simp only [stepU]
    split <;> rfl
  | image a b c => rfl
  | arrow a b => rfl
  | clearArrows => rfl
  | clearMap => rfl
  | error c => rfl

/-- A fold over events none of which touch the message keeps the message. -/
theorem foldl_stepU_message : ∀ {es : List Ev} {u : Unified},
    (∀ e ∈ es, touchesMsg e = false) → (es.foldl stepU u).message = u.message := by
  intro es
  induction es with
  | nil => intro u _; rfl
  | cons e es ih =>
    intro u h
    rw [List.foldl_cons,
      ih fun x hx => h x (List.mem_cons_of_mem _ hx),
      stepU_message_of (h e (List.mem_cons_self ..))]

/-- Once `2d_map` is set, a fold over map-free events keeps it unchanged. -/
theorem foldl_stepU_twoDMap_some : ∀ {es : List Ev} {u : Unified} {m : TwoDMap},
    (∀ e ∈ es, isMapEv e = false) → u.twoDMap = some m →
    (es.foldl stepU u).twoDMap = some m := by
  intro es
  induction es with
  | nil => intro u m _ hu; exact hu
  | cons e es ih =>
    intro u m h hu
    rw [List.foldl_cons]
    refine ih (fun x hx => h x (List.mem_cons_of_mem _ hx)) ?_
    cases e with
    | mapCmd v =>
      have := h _ (List.mem_cons_self ..)
      simp [isMapEv] at this
    | highlight rooms =>
      simp only [stepU]
      split
      · next hcond =>
        rw [hu] at hcond
        simp at hcond
      · exact hu
    | text c => exact hu
    | code cb => exact hu
    | image a b c => exact hu
    | arrow a b => exact hu
    | clearArrows => exact hu
    | clearMap => exact hu
    | error c => exact hu

/-- Starting from an unset `2d_map`, a fold over map-free events sets it from
the first highlight event with a nonempty room list, and from nothing else. -/
theorem foldl_stepU_twoDMap_none : ∀ {es : List Ev} {u : Unified},
    (∀ e ∈ es, isMapEv e = false) → u.twoDMap = none →
    (es.foldl stepU u).twoDMap = (firstHL es).map highlightMapOf := by
  intro es
  induction es with
  | nil => intro u _ hu; exact hu
  | cons e es ih =>
    intro u h hu
    rw [List.foldl_cons]
    cases e with
    | mapCmd v =>
      have := h _ (List.mem_cons_self ..)
      simp [isMapEv] at this
    | highlight rooms =>
      by_cases hr : rooms = []
      · subst hr
        have hstep : stepU u (Ev.highlight []) = u := by
          simp [stepU]
        rw [hstep, ih (fun x hx => h x (List.mem_cons_of_mem _ hx)) hu]
        simp [firstHL]
      · have hstep : stepU u (Ev.highlight rooms) =
            { u with twoDMap := some (highlightMapOf rooms) } := by
          simp only [stepU]
          rw [if_pos ⟨hr, by rw [hu]; rfl⟩]
        rw [hstep,
          foldl_stepU_twoDMap_some
            (fun x hx => h x (List.mem_cons_of_mem _ hx)) rfl]
        simp [firstHL, hr]
    | text c => exact ih (fun x hx => h x (List.mem_cons_of_mem _ hx)) hu
    | code cb => exact ih (fun x hx => h x (List.mem_cons_of_mem _ hx)) hu
    | image a b c => exact ih (fun x hx => h x (List.mem_cons_of_mem _ hx)) hu
    | arrow a b => exact ih (fun x hx => h x (List.mem_cons_of_mem _ hx)) hu
    | clearArrows => exact ih (fun x hx => h x (List.mem_cons_of_mem _ hx)) hu
    | clearMap => exact ih (fun x hx => h x (List.mem_cons_of_mem _ hx)) hu
    | error c => exact ih (fun x hx => h x (List.mem_cons_of_mem _ hx)) hu

/-- The post-fold message fallback never touches `2d_map`. -/
theorem unifiedOf_twoDMap (r : AgentResponse) (es : List Ev) :
    (unifiedOf r es).twoDMap = (es.foldl stepU initUnified).twoDMap := by
  unfold unifiedOf
  simp only []
  split <;> rfl

/-- The post-fold message fallback never touches the agent label. -/
theorem unifiedOf_agent (r : AgentResponse) (es : List Ev) :
    (unifiedOf r es).agent = "smolAgent" := by
  unfold unifiedOf
  simp only []
  split
  · exact (foldl_stepU_agent es initUnified).trans rfl
  · exact (foldl_stepU_agent es initUnified).trans rfl

/-- C6 (corrected claim refuted here): a HighlightRoom event preceded only
by another HighlightRoom event (no MapCommand anywhere) is NOT applied: the
guard checks that `2d_map` is unset by any earlier event, so the first
highlight wins and the second one's rooms are discarded. -/
theorem highlight_map_cex :
    (unifiedOf ⟨some "", "", [], [], false⟩
        [Ev.highlight ["Kitchen"], Ev.highlight ["Bathroom"]]).twoDMap =
      some (highlightMapOf ["Kitchen"]) ∧
    highlightMapOf ["Bathroom"] ≠ highlightMapOf ["Kitchen"] :=
  ⟨rfl, by
    intro h
    simp [highlightMapOf, roomRect] at h⟩

/-- C6 (amended): a HighlightRoom event with a nonempty room list sets
`2d_map` exactly when no earlier event of any kind has set it; hence over an
event list without MapCommand events the final `2d_map` is synthesized from
the FIRST nonempty HighlightRoom event (or stays unset if there is none). -/
theorem highlight_map_amended (r : AgentResponse) (es : List Ev)
    (hnomap : ∀ e ∈ es, isMapEv e = false) :
    (unifiedOf r es).twoDMap = (firstHL es).map highlightMapOf := by
  rw [unifiedOf_twoDMap]
  exact foldl_stepU_twoDMap_none hnomap rfl

/-- C6 (witness): the amended theorem applied to a single highlight event,
which is applied on the default floor. -/
theorem highlight_map_amended_witness :
    (∀ e ∈ [Ev.highlight ["Kitchen"]], isMapEv e = false) ∧
    (unifiedOf ⟨some "", "", [], [], false⟩
        [Ev.highlight ["Kitchen"]]).twoDMap =
      some (highlightMapOf ["Kitchen"]) :=
  ⟨by
    intro e he
    simp only [List.mem_singleton] at he
    subst he; rfl,
   (highlight_map_amended ⟨some "", "", [], [], false⟩
      [Ev.highlight ["Kitchen"]]
      (by
        intro e he
        simp only [List.mem_singleton] at he
        subst he; rfl)).trans rfl⟩

/-- C7 (corrected claim refuted here): an empty (but present) raw text does
NOT yield the placeholder — `dict.get`'s default applies only when the key
is absent, so the returned message is the empty string. -/
theorem message_fallback_cex :
    (unifiedOf ⟨some "", "", [], [], false⟩ []).message = "" ∧
    ("" : String) ≠ "Response generated" :=
  ⟨rfl, by decide⟩

/-- C7 (amended): post-fold, a still-empty message is replaced by
`raw.text` whenever the text key is present (even when it is the empty
string), and by the placeholder `Response generated` only when the key is
absent; over events that never touch the message this is the final value. -/
theorem message_fallback_amended (r : AgentResponse) (es : List Ev)
    (h : ∀ e ∈ es, touchesMsg e = false) :
    (unifiedOf r es).message = r.text.getD "Response generated" := by
  unfold unifiedOf
  have hm : (es.foldl stepU initUnified).message = "" := foldl_stepU_message h
  simp [hm]

/-- C7 (witness): the amended theorem applied to a response without a text
key and no events: the placeholder appears. -/
theorem message_fallback_amended_witness :
    (∀ e ∈ ([] : List Ev), touchesMsg e = false) ∧
    (unifiedOf ⟨none, "", [], [], false⟩ []).message = "Response generated" :=
  ⟨fun e he => absurd he (List.not_mem_nil e),
   (message_fallback_amended ⟨none, "", [], [], false⟩ []
     (fun e he => absurd he (List.not_mem_nil e))).trans rfl⟩

/-- C8 (corrected claim refuted here): folding an Error event does not
populate the message with its content — with an empty raw text the final
message is empty, not the error text. -/
theorem error_event_cex :
    (unifiedOf ⟨some "", "", [], [], false⟩ [Ev.error "boom"]).message = "" ∧
    ("" : String) ≠ "boom" :=
  ⟨rfl, by decide⟩

/-- C8 (amended): an Error event is a no-op of the fold — the merge has no
branch for it — so the unified response is the same with or without it; the
message carries the error text only through the post-fold fallback to
`raw.text`, which equals the error content in the parse pipeline. -/
theorem error_event_amended (r : AgentResponse) (es1 es2 : List Ev)
    (c : String) :
    unifiedOf r (es1 ++ Ev.error c :: es2) = unifiedOf r (es1 ++ es2) := by
  unfold unifiedOf
  rw [List.foldl_append, List.foldl_append, List.foldl_cons]
  rfl

/-- C9 (confirmed): loading a source with three rectangles yields a
MapDefinition with exactly one floor, three rectangles on it, and a
coordinate system whose ten numeric fields are exactly the source values —
the load path only copies them. -/
theorem load_legacy_preserves (d : LegacyData) (img fid fname : String)
    (bs : List MBitmap) (h3 : d.rectangles.length = 3) :
    (load_legacy_data d img fid fname bs).floors.length = 1 ∧
    ∀ f ∈ (load_legacy_data d img fid fname bs).floors,
      f.rectangles.length = 3 ∧
      f.coordinateSystem.topLeft.px = d.coordinateSystem.topLeft.px ∧
      f.coordinateSystem.topLeft.py = d.coordinateSystem.topLeft.py ∧
      f.coordinateSystem.topLeft.x = d.coordinateSystem.topLeft.x ∧
      f.coordinateSystem.topLeft.y = d.coordinateSystem.topLeft.y ∧
      f.coordinateSystem.bottomRight.px = d.coordinateSystem.bottomRight.px ∧
      f.coordinateSystem.bottomRight.py = d.coordinateSystem.bottomRight.py ∧
      f.coordinateSystem.bottomRight.x = d.coordinateSystem.bottomRight.x ∧
      f.coordinateSystem.bottomRight.y = d.coordinateSystem.bottomRight.y ∧
      f.coordinateSystem.scaleX = d.coordinateSystem.scaleX ∧
      f.coordinateSystem.scaleY = d.coordinateSystem.scaleY := by
  refine ⟨rfl, ?_⟩
  intro f hf
  simp only [load_legacy_data, List.mem_singleton] at hf
  subst hf
  refine ⟨?_, rfl, rfl, rfl, rfl, rfl, rfl, rfl, rfl, rfl, rfl⟩
  simp [List.length_map, h3]

/-- C9 (witness): the theorem applied to the concrete sample document. -/
theorem load_legacy_preserves_witness :
    sampleLegacyData.rectangles.length = 3 ∧
    ((load_legacy_data sampleLegacyData "plan.png" "1F" "Floor 1"
        []).floors.length = 1 ∧
     ∀ f ∈ (load_legacy_data sampleLegacyData "plan.png" "1F" "Floor 1"
        []).floors,
       f.rectangles.length = 3 ∧
       f.coordinateSystem.topLeft.px = sampleLegacyData.coordinateSystem.topLeft.px ∧
       f.coordinateSystem.topLeft.py = sampleLegacyData.coordinateSystem.topLeft.py ∧
       f.coordinateSystem.topLeft.x = sampleLegacyData.coordinateSystem.topLeft.x ∧
       f.coordinateSystem.topLeft.y = sampleLegacyData.coordinateSystem.topLeft.y ∧
       f.coordinateSystem.bottomRight.px = sampleLegacyData.coordinateSystem.bottomRight.px ∧
       f.coordinateSystem.bottomRight.py = sampleLegacyData.coordinateSystem.bottomRight.py ∧
       f.coordinateSystem.bottomRight.x = sampleLegacyData.coordinateSystem.bottomRight.x ∧
       f.coordinateSystem.bottomRight.y = sampleLegacyData.coordinateSystem.bottomRight.y ∧
       f.coordinateSystem.scaleX = sampleLegacyData.coordinateSystem.scaleX ∧
       f.coordinateSystem.scaleY = sampleLegacyData.coordinateSystem.scaleY) :=
  ⟨by decide,
   load_legacy_preserves sampleLegacyData "plan.png" "1F" "Floor 1" []
     (by decide)⟩

/-- C10 (confirmed): aggregation always returns exactly one UnifiedResponse
(a single-element list) whose agent label is the constant smolAgent; the fold
is a total function over the typed events, so no individual event can make it
fail. -/
theorem unified_response_single (r : AgentResponse) (es : List Ev) :
    ∃ u, generate_unified_response r es = [u] ∧ u.agent = "smolAgent" :=
  ⟨unifiedOf r es, rfl, unifiedOf_agent r es⟩

end SmolUI
